import Mathlib

/-!
# go-streamer: upload validation, path layout and handlers of `main.go`

A shallow embedding of `src/main.go`.  Go strings are modelled by their
sequence of runes (`List Char`, i.e. valid UTF-8 text); the bytes `.`, `/` and
the space never occur inside a multi-byte UTF-8 sequence, so the byte scans of
the Go library for these characters coincide with scans over runes.

The Go standard-library functions the program calls (`filepath.Ext`,
`filepath.Clean`, `filepath.Join`, `strings.ToLower`, `strings.TrimPrefix`,
`strings.ReplaceAll`, `fmt.Sprintf` with `%s`) are modelled with their Unix
behaviour (path separator `/`, no volume names).  Everything the handlers get
from outside the program (the parsed form, the minted UUID, the outcome of
file-system calls and of the `ffmpeg` child process) is an explicit argument.
-/

namespace GoStreamer

/-- A Go string, as its sequence of runes. -/
abbrev Str := List Char

instance : Coe String Str := ⟨String.toList⟩

/-! ## Go standard library -/

/-- Loop of `filepath.Ext`: the path is read from its last byte backwards
(the first argument is the part still to read, last byte first, `acc` what has
been read); it stops with the empty result at a separator and with the suffix
from the dot at a dot. -/
def extScan : List Char → Str → Str
  | [], _ => []
  | c :: rest, acc =>
    if c = '/' then [] else if c = '.' then '.' :: acc else extScan rest (c :: acc)

/-- Go `filepath.Ext`: the suffix beginning at the final dot in the final
element of the path; empty if there is no dot. -/
def Ext (path : Str) : Str := extScan path.reverse []

/-- Go `unicode.ToLower` on one rune.  ASCII is handled as in the library
(`A`..`Z` are shifted by `a - A`, other ASCII runes are kept); `uni` stands for
the Unicode case table the library consults for runes above `MaxASCII`. -/
def toLowerRune (uni : Char → Char) (c : Char) : Char :=
  if c.toNat ≤ 127 then
    if 'A'.toNat ≤ c.toNat ∧ c.toNat ≤ 'Z'.toNat then Char.ofNat (c.toNat + ('a'.toNat - 'A'.toNat))
    else c
  else uni c

/-- Go `strings.ToLower`: every rune mapped to lower case. -/
def ToLower (uni : Char → Char) (s : Str) : Str := s.map (toLowerRune uni)

/-- Go slice expression `s[n:]`; `none` stands for the run-time panic
"slice bounds out of range". -/
def sliceFrom (s : Str) (n : Nat) : Option Str :=
  if n ≤ s.length then some (s.drop n) else none

/-- Indexing a Go `map[string]bool`: a missing key yields the zero value
`false`. -/
def mapIndex (m : List (Str × Bool)) (k : Str) : Bool :=
  match m.lookup k with
  | some b => b
  | none => false

/-- Go `strings.TrimPrefix`. -/
def TrimPrefix (s pre : Str) : Str :=
  if pre.isPrefixOf s then s.drop pre.length else s

/-- Loop of `strings.ReplaceAll` for a non-empty `old`: occurrences are found
from left to right without overlap; the counter is the number of runes of the
occurrence just replaced that are still to be skipped. -/
def replaceScan (old new : Str) : Nat → Str → Str
  | _, [] => []
  | k + 1, _ :: cs => replaceScan old new k cs
  | 0, c :: cs =>
    if old.isPrefixOf (c :: cs) then new ++ replaceScan old new (old.length - 1) cs
    else c :: replaceScan old new 0 cs

/-- Go `strings.ReplaceAll`.  With an empty `old` the library inserts `new`
before every rune and at the end. -/
def ReplaceAll (s old new : Str) : Str :=
  if old = [] then new ++ (s.map (fun c => c :: new)).flatten
  else replaceScan old new 0 s

/-- Go `fmt.Sprintf` for a format with one `%s` verb and one string operand:
the operand takes the place of the verb. -/
def Sprintf : Str → Str → Str
  | [], _ => []
  | '%' :: 's' :: rest, a => a ++ rest
  | c :: rest, a => c :: Sprintf rest a

/-- Go `strings.Join(elems, "/")`. -/
def joinSep : List Str → Str
  | [] => []
  | [e] => e
  | e :: es => e ++ '/' :: joinSep es

/-- The `/`-separated elements of a path (empty elements included), the units
in which the loop of `filepath.Clean` consumes its input. -/
def splitSep : Str → List Str
  | [] => [[]]
  | c :: cs =>
    if c = '/' then [] :: splitSep cs
    else
      match splitSep cs with
      | [] => [[c]]
      | e :: es => (c :: e) :: es

/-- One round of the loop of `filepath.Clean`, on the path element `e`.  `out`
is the output written so far as a stack of elements, last written first.  An
empty element and `.` are dropped; `..` removes the last element written when
there is one that is not itself a leading `..` (the library's `out.w > dotdot`),
is appended when the path is not rooted, and is dropped at the root; any other
element is appended. -/
def cleanStep (rooted : Bool) (out : List Str) (e : Str) : List Str :=
  if e = [] then out
  else if e = ['.'] then out
  else if e = ['.', '.'] then
    match out with
    | top :: below =>
      if top = ['.', '.'] then (if rooted then out else e :: out) else below
    | [] => if rooted then out else e :: out
  else e :: out

/-- Go `filepath.Clean` (Unix). -/
def Clean (path : Str) : Str :=
  if path = [] then ['.']
  else
    let rooted := decide (path.head? = some '/')
    let out := (splitSep path).foldl (cleanStep rooted) []
    let body := joinSep out.reverse
    if rooted then '/' :: body
    else if body = [] then ['.'] else body

/-- Go `filepath.Join` (Unix): leading empty elements are ignored, the rest is
joined with `/` and cleaned; the result is empty when all elements are. -/
def Join (elem : List Str) : Str :=
  match elem.dropWhile (fun e => decide (e = [])) with
  | [] => []
  | rest => Clean (joinSep rest)

/-- Lexical containment of a cleaned path in a cleaned directory: the path is
the directory itself or continues it after a separator. -/
def isInside (dir p : Str) : Bool :=
  p == dir || (dir ++ ['/']).isPrefixOf p

/-! ## Configuration (`main.go` lines 19-28) -/

def UploadFolder : Str := "uploads"

def OutputFolder : Str := "streams"

def MaxContentLength : Nat := 100 * 1024 * 1024

def AllowedExtensions : List (Str × Bool) :=
  [("mp4", true), ("avi", true), ("mov", true),
   ("mkv", true), ("wmv", true), ("flv", true), ("webm", true)]

/-! ## Helper functions (`main.go` lines 213-225) -/

/-- Source `isAllowedFile`.  The result is `none` if the slice `ext[1:]`
panics. -/
def isAllowedFile (uni : Char → Char) (filename : Str) : Option Bool :=
  let ext := Ext filename
  if ext = [] then some false
  else
    match sliceFrom ext 1 with
    | none => none
    | some e => some (mapIndex AllowedExtensions (ToLower uni e))

/-- Source `secureFilename`. -/
def secureFilename (filename : Str) : Str :=
  ReplaceAll filename " " "_"

/-! ## External world -/

/-- An external command as built by `exec.Command(name, arg...)`: the program
name and the arguments handed to it. -/
structure Cmd where
  name : Str
  args : List Str
deriving DecidableEq

/-- Go `exec.Command`. -/
def Command (name : Str) (arg : List Str) : Cmd := ⟨name, arg⟩

/-- The part of the machine the handlers act on: the directories made, the
files written (path and number of bytes) and the child processes run, oldest
first. -/
structure World where
  dirs : List Str
  files : List (Str × Nat)
  runs : List Cmd
deriving DecidableEq

/-- Go `os.MkdirAll(path, perm)`, whose result the program ignores: making a
directory that exists changes nothing. -/
def MkdirAll (path : Str) (w : World) : World :=
  if path ∈ w.dirs then w else { w with dirs := w.dirs ++ [path] }

/-- The file at `path` now holds `n` bytes (`os.Create` truncates, `io.Copy`
writes). -/
def writeFile (path : Str) (n : Nat) (w : World) : World :=
  { w with files := (w.files.filter (fun f => decide (f.1 ≠ path))) ++ [(path, n)] }

/-- Running a child process to completion (`cmd.CombinedOutput`). -/
def runCmd (cmd : Cmd) (w : World) : World :=
  { w with runs := w.runs ++ [cmd] }

/-- A JSON value of the kinds the handlers put in a `gin.H`. -/
inductive JSON where
  | null : JSON
  | str : Str → JSON
deriving DecidableEq

/-- A `gin.H` / `map[string]interface{}` literal, in source order. -/
abbrev H := List (Str × JSON)

/-- The payload of a response. -/
inductive Body where
  | obj : H → Body
  | arr : List H → Body
deriving DecidableEq

/-- What a handler writes with `c.JSON` or `c.HTML`: status code and payload. -/
structure Response where
  status : Nat
  body : Body
deriving DecidableEq

def StatusOK : Nat := 200

def StatusBadRequest : Nat := 400

def StatusNotFound : Nat := 404

def StatusInternalServerError : Nat := 500

/-! ## Conversions (`main.go` lines 227-284) -/

/-- The command `convertToHLS` builds (lines 230-242). -/
def hlsCommand (inputPath outputDir : Str) : Cmd :=
  let hlsPlaylist := Join [outputDir, "playlist.m3u8"]
  Command "ffmpeg" [
    "-i", inputPath,
    "-profile:v", "baseline",
    "-level", "3.0",
    "-start_number", "0",
    "-hls_time", "10",
    "-hls_list_size", "0",
    "-f", "hls",
    hlsPlaylist]

/-- Source `convertToHLS`; `exitOk` is whether `cmd.CombinedOutput` returned
no error. -/
def convertToHLS (exitOk : Bool) (inputPath outputDir : Str) (w : World) : World × Bool :=
  let w := MkdirAll outputDir w
  let w := runCmd (hlsCommand inputPath outputDir) w
  if !exitOk then (w, false) else (w, true)

/-- The command `convertToDASH` builds (lines 257-274). -/
def dashCommand (inputPath outputDir : Str) : Cmd :=
  let dashPlaylist := Join [outputDir, "manifest.mpd"]
  Command "ffmpeg" (
    (["-i", inputPath] : List Str) ++
    (["-map", "0:v", "-map", "0:a"] : List Str) ++
    (["-c:v", "libx264", "-x264-params", "keyint=60:min-keyint=60:no-scenecut=1"] : List Str) ++
    (["-b:v:0", "1500k"] : List Str) ++
    (["-c:a", "aac", "-b:a", "128k"] : List Str) ++
    (["-bf", "1", "-keyint_min", "60"] : List Str) ++
    (["-g", "60", "-sc_threshold", "0"] : List Str) ++
    (["-f", "dash"] : List Str) ++
    (["-use_template", "1", "-use_timeline", "1"] : List Str) ++
    (["-init_seg_name", "init-$RepresentationID$.m4s"] : List Str) ++
    (["-media_seg_name", "chunk-$RepresentationID$-$Number%05d$.m4s"] : List Str) ++
    (["-adaptation_sets", "id=0,streams=v id=1,streams=a"] : List Str) ++
    ([dashPlaylist] : List Str))

/-- Source `convertToDASH`. -/
def convertToDASH (exitOk : Bool) (inputPath outputDir : Str) (w : World) : World × Bool :=
  let w := MkdirAll outputDir w
  let w := runCmd (dashCommand inputPath outputDir) w
  if !exitOk then (w, false) else (w, true)

/-! ## Upload (`main.go` lines 61-130) -/

/-- The `multipart.FileHeader` fields in play: the client-supplied filename
and the size of the content. -/
structure FileHeader where
  Filename : Str
  Size : Nat
deriving DecidableEq

/-- What the environment answers during one upload: the identifier minted by
`uuid.New().String()`, whether `os.Create` and `io.Copy` return no error (and
how many bytes a failing copy has written), and whether each `ffmpeg` run
exits without error. -/
structure UploadEnv where
  videoID : Str
  createOk : Bool
  copyOk : Bool
  copied : Nat
  hlsOk : Bool
  dashOk : Bool
deriving DecidableEq

/-- Source `uploadFileHandler`.  `form` is the result of
`c.Request.FormFile("file")` (`none` when it returns an error).  The result is
the world after the request and the response, `none` if the handler panics. -/
def uploadFileHandler (uni : Char → Char) (env : UploadEnv) (form : Option FileHeader)
    (w : World) : Option (World × Response) :=
  match form with
  | none => some (w, ⟨StatusBadRequest, .obj [("error", .str "No file part")]⟩)
  | some header =>
    if header.Filename = [] then
      some (w, ⟨StatusBadRequest, .obj [("error", .str "No selected file")]⟩)
    else
      match isAllowedFile uni header.Filename with
      | none => none
      | some false => some (w, ⟨StatusBadRequest, .obj [("error", .str "File type not allowed")]⟩)
      | some true =>
        let videoID := env.videoID
        let videoUploadDir := Join [UploadFolder, videoID]
        let w := MkdirAll videoUploadDir w
        let streamOutputDir := Join [OutputFolder, videoID]
        let w := MkdirAll streamOutputDir w
        let filename := secureFilename header.Filename
        let filePath := Join [videoUploadDir, filename]
        if !env.createOk then
          some (w, ⟨StatusInternalServerError, .obj [("error", .str "Failed to save file")]⟩)
        else
          let w := writeFile filePath 0 w
          if !env.copyOk then
            some (writeFile filePath env.copied w,
              ⟨StatusInternalServerError, .obj [("error", .str "Failed to save file")]⟩)
          else
            let w := writeFile filePath header.Size w
            let hlsOutputDir := Join [streamOutputDir, "hls"]
            let dashOutputDir := Join [streamOutputDir, "dash"]
            let (w, hlsResult) := convertToHLS env.hlsOk filePath hlsOutputDir w
            let (w, dashResult) := convertToDASH env.dashOk filePath dashOutputDir w
            if hlsResult && dashResult then
              some (w, ⟨StatusOK, .obj [
                ("id", .str videoID),
                ("status", .str "success"),
                ("hls_url", .str (Sprintf "/stream/%s/hls/playlist.m3u8" videoID)),
                ("dash_url", .str (Sprintf "/stream/%s/dash/manifest.mpd" videoID)),
                ("player_url", .str (Sprintf "/player/%s" videoID))]⟩)
            else
              some (w, ⟨StatusInternalServerError, .obj [("error", .str "Conversion failed")]⟩)

/-! ## Streaming, player and listing (`main.go` lines 132-209, 286-289) -/

/-- The three results of `os.Stat` the program tells apart: no error, an
error for which `os.IsNotExist` holds, any other error (permission denied, a
path component that is not a directory, ...). -/
inductive StatResult where
  | ok : StatResult
  | notExist : StatResult
  | otherErr : StatResult
deriving DecidableEq

/-- Go `os.IsNotExist(err)` on the error of a `Stat`. -/
def IsNotExist : StatResult → Bool
  | .notExist => true
  | _ => false

/-- The path `streamFileHandler` resolves from its route parameters
(lines 133-141). -/
def streamFilePath (videoID formatType filename : Str) : Str :=
  let filename := TrimPrefix filename "/"
  let directory := Join [OutputFolder, videoID, formatType]
  Join [directory, filename]

/-- The outcome of `streamFileHandler`: a JSON error or the file handed to
`c.File`. -/
inductive StreamResult where
  | json : Response → StreamResult
  | file : Str → StreamResult
deriving DecidableEq

/-- Source `streamFileHandler`; `stat` answers `os.Stat`. -/
def streamFileHandler (stat : Str → StatResult) (videoID formatType filename : Str) :
    StreamResult :=
  let filePath := streamFilePath videoID formatType filename
  if IsNotExist (stat filePath) then
    .json ⟨StatusNotFound, .obj [("error", .str "File not found")]⟩
  else .file filePath

/-- Source `playerHandler`: the data handed to the `player.html` template. -/
def playerHandler (videoID : Str) : Response :=
  let hlsURL := Sprintf "/stream/%s/hls/playlist.m3u8" videoID
  let dashURL := Sprintf "/stream/%s/dash/manifest.mpd" videoID
  ⟨StatusOK, .obj [("video_id", .str videoID), ("hls_url", .str hlsURL), ("dash_url", .str dashURL)]⟩

/-- Source `fileExists`. -/
def fileExists (stat : Str → StatResult) (path : Str) : Bool :=
  !IsNotExist (stat path)

/-- An `os.DirEntry` as far as the program reads it. -/
structure DirEntry where
  Name : Str
  IsDir : Bool
deriving DecidableEq

/-- Path tested for HLS availability (lines 177 and 179). -/
def listHlsPath (videoID : Str) : Str :=
  let videoDir := Join [OutputFolder, videoID]
  Join [videoDir, "hls", "playlist.m3u8"]

/-- Path tested for DASH availability (lines 177 and 180). -/
def listDashPath (videoID : Str) : Str :=
  let videoDir := Join [OutputFolder, videoID]
  Join [videoDir, "dash", "manifest.mpd"]

/-- Body of the loop of `videoListHandler` (lines 175-205). -/
def videoListStep (stat : Str → StatResult) (videos : List H) (entry : DirEntry) : List H :=
  if entry.IsDir then
    let videoID := entry.Name
    let hlsExists := fileExists stat (listHlsPath videoID)
    let dashExists := fileExists stat (listDashPath videoID)
    if hlsExists || dashExists then
      let video : H :=
        [("id", .str videoID), ("player_url", .str (Sprintf "/player/%s" videoID))]
      let video : H :=
        video ++ ([("hls_url", if hlsExists then .str (Sprintf "/stream/%s/hls/playlist.m3u8" videoID) else .null)] : H)
      let video : H :=
        video ++ ([("dash_url", if dashExists then .str (Sprintf "/stream/%s/dash/manifest.mpd" videoID) else .null)] : H)
      videos ++ [video]
    else videos
  else videos

/-- Source `videoListHandler`; `readDir` is the result of
`os.ReadDir(OutputFolder)` (`none` when it returns an error). -/
def videoListHandler (readDir : Option (List DirEntry)) (stat : Str → StatResult) : Response :=
  match readDir with
  | none =>
    ⟨StatusInternalServerError, .obj [("error", .str "Failed to read videos directory")]⟩
  | some entries => ⟨StatusOK, .arr (entries.foldl (videoListStep stat) [])⟩

/-! ## Predicates used in the statements -/

/-- The text after the final dot of `f`, lower-cased, is on the allow-list. -/
def HasAllowedExt (uni : Char → Char) (f : Str) : Prop :=
  ∃ stem e : Str, f = stem ++ '.' :: e ∧ '.' ∉ e ∧
    ToLower uni e ∈ ([("mp4" : Str), "avi", "mov", "mkv", "wmv", "flv", "webm"] : List Str)

/-- A request-shape error of an upload: the file part is missing, its filename
is empty, or `isAllowedFile` rejects the filename. -/
def ShapeError (uni : Char → Char) : Option FileHeader → Prop
  | none => True
  | some header => header.Filename = [] ∨ isAllowedFile uni header.Filename = some false

/-- A path element that `filepath.Clean` copies as it is: not empty, without
separator, neither `.` nor `..`. -/
def RealElem (e : Str) : Prop :=
  e ≠ [] ∧ '/' ∉ e ∧ e ≠ ['.'] ∧ e ≠ ['.', '.']

/-- The elements `filepath.Clean` keeps when no `..` is involved. -/
def keepElem (e : Str) : Bool :=
  decide (e ≠ []) && decide (e ≠ ['.'])

/-- The map `videoListHandler` appends for a listed video, given which entry
files `fileExists` reports (lines 186-201). -/
def listedVideo (videoID : Str) (hlsExists dashExists : Bool) : H :=
  [("id", .str videoID),
   ("player_url", .str ("/player/" ++ videoID)),
   ("hls_url", if hlsExists then .str ("/stream/" ++ videoID ++ "/hls/playlist.m3u8") else .null),
   ("dash_url", if dashExists then .str ("/stream/" ++ videoID ++ "/dash/manifest.mpd") else .null)]

/-- Lower-case hexadecimal digit. -/
def isHexLower (c : Char) : Bool :=
  ('0'.toNat ≤ c.toNat && c.toNat ≤ '9'.toNat) || ('a'.toNat ≤ c.toNat && c.toNat ≤ 'f'.toNat)

/-- The canonical text form of a UUID, as `uuid.New().String()` prints it: 36
characters, hyphens at positions 8, 13, 18 and 23, lower-case hexadecimal
digits elsewhere. -/
def isCanonicalUUID (s : Str) : Bool :=
  s.length == 36 &&
  s.all (fun c => c == '-' || isHexLower c) &&
  [8, 13, 18, 23].all (fun i => s.get? i == some '-') &&
  (s.filter (fun c => c == '-')).length == 4

/-- A `Stat` oracle for an output tree in which `streams/v1/hls` is a regular
file and not a directory: `Stat` of the HLS playlist fails with `ENOTDIR`, an
error for which `os.IsNotExist` is false, and the DASH manifest does not
exist.  No entry file of `v1` exists. -/
def statHlsNotADirectory (p : Str) : StatResult :=
  if p = ("streams/v1/hls/playlist.m3u8" : Str) then .otherErr else .notExist

/-! ## The library model on the library's documented cases -/

/-- The model of `filepath.Clean` on rows of the library's own test table. -/
theorem Clean_library_table :
    Clean "abc" = "abc" ∧ Clean "a/b/c" = "a/b/c" ∧ Clean "." = "." ∧ Clean ".." = ".." ∧
    Clean "../../abc" = "../../abc" ∧ Clean "/abc" = "/abc" ∧ Clean "/" = "/" ∧
    Clean "" = "." ∧ Clean "abc/def/" = "abc/def" ∧ Clean "./" = "." ∧ Clean "../../" = "../.." ∧
    Clean "abc//def//ghi" = "abc/def/ghi" ∧ Clean "abc/./def" = "abc/def" ∧
    Clean "/./abc/def" = "/abc/def" ∧ Clean "abc/def/ghi/../jkl" = "abc/def/jkl" ∧
    Clean "abc/def/../ghi/../jkl" = "abc/jkl" ∧ Clean "abc/def/../.." = "." ∧
    Clean "/abc/def/../.." = "/" ∧ Clean "abc/def/../../.." = ".." ∧
    Clean "/abc/def/../../.." = "/" ∧
    Clean "abc/def/../../../ghi/jkl/../../../mno" = "../../mno" ∧
    Clean "/../abc" = "/abc" ∧ Clean "a/../b:/../../c" = "../c" ∧
    Clean "abc/./../def" = "def" ∧ Clean "abc/../../././../def" = "../../def" := by
  decide

/-- The models of `filepath.Join`, `filepath.Ext`, `strings.TrimPrefix`,
`strings.ReplaceAll`, `strings.ToLower` and `fmt.Sprintf` on documented
cases. -/
theorem library_cases :
    Join ["a", "b"] = "a/b" ∧ Join ["a", ""] = "a" ∧ Join ["", "b"] = "b" ∧
    Join ["/", "a"] = "/a" ∧ Join ["a/", "b"] = "a/b" ∧ Join ["", ""] = "" ∧
    Join ["a/b", "../../../xyz"] = "../xyz" ∧ Join ["a", "b", "c"] = "a/b/c" ∧
    Ext "path.go" = ".go" ∧ Ext "path.pb.go" = ".go" ∧ Ext "a.dir/b" = "" ∧
    Ext "a.dir/b.go" = ".go" ∧ Ext "a.dir/" = "" ∧ Ext "index" = "" ∧ Ext "index." = "." ∧
    TrimPrefix "/playlist.m3u8" "/" = "playlist.m3u8" ∧ TrimPrefix "//x" "/" = "/x" ∧
    TrimPrefix "x/" "/" = "x/" ∧
    ReplaceAll "oink oink oink" "k" "ky" = "oinky oinky oinky" ∧
    ReplaceAll "oink oink oink" "oink" "moo" = "moo moo moo" ∧
    ReplaceAll "aaa" "aa" "b" = "ba" ∧ ReplaceAll "ab" "" "-" = "-a-b-" ∧
    ToLower id "Gopher.MP4" = "gopher.mp4" ∧
    Sprintf "/stream/%s/hls/playlist.m3u8" "v1" = "/stream/v1/hls/playlist.m3u8" := by
  decide


/-! ## Lemmas on the library model -/

theorem extScan_nil_or (r : List Char) : ∀ acc : Str,
    extScan r acc = [] ∨
      ∃ pre post, r = pre ++ '.' :: post ∧ '.' ∉ pre ∧ '/' ∉ pre ∧
        extScan r acc = '.' :: (pre.reverse ++ acc) := by
  induction r with
  | nil => intro acc; left; rfl
  | cons c rest ih =>
    intro acc
    by_cases h1 : c = '/'
    · left; simp [extScan, h1]
    · by_cases h2 : c = '.'
      · right
        refine ⟨[], rest, ?_, ?_, ?_, ?_⟩ <;> simp [extScan, h2]
      · rcases ih (c :: acc) with h | ⟨pre, post, hr, hd, hs, he⟩
        · left; simp [extScan, h1, h2, h]
        · right
          refine ⟨c :: pre, post, ?_, ?_, ?_, ?_⟩
          · simp [hr]
          · simp only [List.mem_cons, not_or]; exact ⟨fun h => h2 h.symm, hd⟩
          · simp only [List.mem_cons, not_or]; exact ⟨fun h => h1 h.symm, hs⟩
          · simp [extScan, h1, h2, he]

theorem extScan_of_dot (pre : List Char) : ∀ (post : List Char) (acc : Str),
    '.' ∉ pre → '/' ∉ pre →
      extScan (pre ++ '.' :: post) acc = '.' :: (pre.reverse ++ acc) := by
  induction pre with
  | nil => intro post acc _ _; simp [extScan]
  | cons c pre ih =>
    intro post acc hd hs
    simp only [List.mem_cons, not_or] at hd hs
    have h1 : c ≠ '/' := fun h => hs.1 h.symm
    have h2 : c ≠ '.' := fun h => hd.1 h.symm
    simp [extScan, h1, h2, ih post (c :: acc) hd.2 hs.2]

theorem extScan_no_dot (r : List Char) : ∀ acc : Str, '.' ∉ r → extScan r acc = [] := by
  induction r with
  | nil => intro acc _; rfl
  | cons c rest ih =>
    intro acc hd
    simp only [List.mem_cons, not_or] at hd
    have h2 : c ≠ '.' := fun h => hd.1 h.symm
    by_cases h1 : c = '/'
    · simp [extScan, h1]
    · simp [extScan, h1, h2, ih (c :: acc) hd.2]

/-- `Ext` of a path whose text after the final dot holds no separator. -/
theorem Ext_of_dot (stem e : Str) (hd : '.' ∉ e) (hs : '/' ∉ e) :
    Ext (stem ++ '.' :: e) = '.' :: e := by
  have h := extScan_of_dot e.reverse stem.reverse [] (by simpa using hd) (by simpa using hs)
  simpa [Ext] using h

/-- A non-empty `Ext` is the final dot of the path and the text after it. -/
theorem Ext_eq_nil_or (f : Str) :
    Ext f = [] ∨ ∃ stem e, f = stem ++ '.' :: e ∧ '.' ∉ e ∧ '/' ∉ e ∧ Ext f = '.' :: e := by
  rcases extScan_nil_or f.reverse [] with h | ⟨pre, post, hr, hd, hs, he⟩
  · left; exact h
  · right
    refine ⟨post.reverse, pre.reverse, ?_, by simpa using hd, by simpa using hs, ?_⟩
    · have := congrArg List.reverse hr
      simpa using this
    · simpa [Ext] using he

theorem toLowerRune_slash (uni : Char → Char) : toLowerRune uni '/' = '/' := by
  simp [toLowerRune]

theorem slash_mem_ToLower (uni : Char → Char) (e : Str) (h : '/' ∈ e) :
    '/' ∈ ToLower uni e := by
  have := List.mem_map_of_mem (toLowerRune uni) h
  simpa [ToLower, toLowerRune_slash] using this

theorem mapIndex_AllowedExtensions (k : Str) :
    mapIndex AllowedExtensions k = true ↔
      k ∈ ([("mp4" : Str), "avi", "mov", "mkv", "wmv", "flv", "webm"] : List Str) := by
  unfold mapIndex AllowedExtensions
  simp only [List.mem_cons, List.mem_singleton, List.not_mem_nil, or_false]
  constructor
  · intro h
    by_contra hne
    simp only [not_or] at hne
    obtain ⟨h1, h2, h3, h4, h5, h6, h7⟩ := hne
    have e1 : (k == ("mp4" : Str)) = false := beq_eq_false_iff_ne.mpr h1
    have e2 : (k == ("avi" : Str)) = false := beq_eq_false_iff_ne.mpr h2
    have e3 : (k == ("mov" : Str)) = false := beq_eq_false_iff_ne.mpr h3
    have e4 : (k == ("mkv" : Str)) = false := beq_eq_false_iff_ne.mpr h4
    have e5 : (k == ("wmv" : Str)) = false := beq_eq_false_iff_ne.mpr h5
    have e6 : (k == ("flv" : Str)) = false := beq_eq_false_iff_ne.mpr h6
    have e7 : (k == ("webm" : Str)) = false := beq_eq_false_iff_ne.mpr h7
    simp only [List.lookup, e1, e2, e3, e4, e5, e6, e7] at h
    exact Bool.false_ne_true h
  · intro h
    rcases h with h | h | h | h | h | h | h <;> subst h <;> decide

theorem allowed_no_slash (k : Str)
    (h : k ∈ ([("mp4" : Str), "avi", "mov", "mkv", "wmv", "flv", "webm"] : List Str)) :
    '/' ∉ k := by
  simp only [List.mem_cons, List.mem_singleton, List.not_mem_nil, or_false] at h
  rcases h with h | h | h | h | h | h | h <;> subst h <;> decide

theorem isAllowedFile_spec (uni : Char → Char) (f : Str) :
    ∃ b, isAllowedFile uni f = some b ∧ (b = true ↔ HasAllowedExt uni f) := by
  have key : ∀ stem e : Str, f = stem ++ '.' :: e → '.' ∉ e →
      ToLower uni e ∈ ([("mp4" : Str), "avi", "mov", "mkv", "wmv", "flv", "webm"] : List Str) →
      Ext f = '.' :: e := by
    intro stem e hf hd hm
    have hs : '/' ∉ e := fun h => allowed_no_slash _ hm (slash_mem_ToLower uni e h)
    rw [hf]; exact Ext_of_dot stem e hd hs
  rcases Ext_eq_nil_or f with h | ⟨stem, e, hf, hd, _, he⟩
  · refine ⟨false, by simp [isAllowedFile, h], ?_⟩
    constructor
    · intro hb; exact absurd hb (by decide)
    · rintro ⟨stem, e, hf, hd, hm⟩
      have := key stem e hf hd hm
      rw [h] at this
      exact absurd this (by simp)
  · refine ⟨mapIndex AllowedExtensions (ToLower uni e), by simp [isAllowedFile, he, sliceFrom], ?_⟩
    rw [mapIndex_AllowedExtensions]
    constructor
    · intro hm; exact ⟨stem, e, hf, hd, hm⟩
    · rintro ⟨stem2, e2, hf2, hd2, hm2⟩
      have := key stem2 e2 hf2 hd2 hm2
      rw [he] at this
      have : e = e2 := by simpa using this
      rw [this]; exact hm2

/-- C1: `isAllowedFile f` is true exactly when the text after the final dot of
`f`, lower-cased, is one of mp4, avi, mov, mkv, wmv, flv, webm, and false
otherwise; it is false for a name without a dot and for a name ending in a dot;
the slice `ext[1:]` never goes out of bounds, so a result is always returned. -/
theorem isAllowedFile_iff_allowed_extension (uni : Char → Char) (f : Str) :
    (isAllowedFile uni f = some true ↔
      ∃ stem e : Str, f = stem ++ '.' :: e ∧ '.' ∉ e ∧
        ToLower uni e ∈ ([("mp4" : Str), "avi", "mov", "mkv", "wmv", "flv", "webm"] : List Str)) ∧
    (isAllowedFile uni f = some false ↔
      ¬ ∃ stem e : Str, f = stem ++ '.' :: e ∧ '.' ∉ e ∧
        ToLower uni e ∈ ([("mp4" : Str), "avi", "mov", "mkv", "wmv", "flv", "webm"] : List Str)) ∧
    ('.' ∉ f → isAllowedFile uni f = some false) ∧
    (∀ stem : Str, f = stem ++ ['.'] → isAllowedFile uni f = some false) ∧
    (Ext f = [] ∨ ∃ e, sliceFrom (Ext f) 1 = some e) := by
  obtain ⟨b, hb, hiff⟩ := isAllowedFile_spec uni f
  have hfalse : isAllowedFile uni f = some false ↔ ¬ HasAllowedExt uni f := by
    rw [hb, ← hiff]; cases b <;> simp
  refine ⟨?_, hfalse, ?_, ?_, ?_⟩
  · rw [hb]; exact (by simp : some b = some true ↔ b = true).trans hiff
  · intro hd
    rw [hfalse]
    rintro ⟨stem, e, hf, _, _⟩
    exact hd (by rw [hf]; simp)
  · intro stem hf
    have hE : Ext f = ['.'] := by rw [hf]; exact Ext_of_dot stem [] (by simp) (by simp)
    simp [isAllowedFile, hE, sliceFrom, ToLower, mapIndex, AllowedExtensions, List.lookup]
  · rcases Ext_eq_nil_or f with h | ⟨_, e, _, _, _, he⟩
    · left; exact h
    · right; exact ⟨e, by simp [he, sliceFrom]⟩

/-- The allow-list statement at `My Clip.MP4`, `notes.txt`, `README` and
`clip.`. -/
theorem isAllowedFile_iff_allowed_extension_witness :
    isAllowedFile id ("My Clip.MP4" : Str) = some true ∧
    isAllowedFile id ("notes.txt" : Str) = some false ∧
    isAllowedFile id ("README" : Str) = some false ∧
    isAllowedFile id ("clip." : Str) = some false :=
  ⟨(isAllowedFile_iff_allowed_extension id "My Clip.MP4").1.mpr
      ⟨"My Clip", "MP4", by decide, by decide, by decide⟩,
   by decide,
   (isAllowedFile_iff_allowed_extension id "README").2.2.1 (by decide),
   (isAllowedFile_iff_allowed_extension id "clip.").2.2.2.1 "clip" (by decide)⟩


/-! ## `secureFilename` -/

theorem replaceScan_space (s : Str) :
    replaceScan [' '] ['_'] 0 s = s.map (fun c => if c = ' ' then '_' else c) := by
  induction s with
  | nil => rfl
  | cons c cs ih =>
    by_cases h : c = ' '
    · subst h
      simp [replaceScan, List.isPrefixOf, ih]
    · have h2 : (' ' == c) = false := by
        rw [beq_eq_false_iff_ne]; exact fun e => h e.symm
      simp [replaceScan, List.isPrefixOf, ih, h, h2]

theorem secureFilename_eq_map (f : Str) :
    secureFilename f = f.map (fun c => if c = ' ' then '_' else c) := by
  have h : secureFilename f = replaceScan [' '] ['_'] 0 f := by
    simp [secureFilename, ReplaceAll]
  rw [h, replaceScan_space]

/-- C9, as stated, fails: a tab in the filename is still in the result of
`secureFilename`, so the result is not free of whitespace. -/
theorem secureFilename_keeps_tab :
    ¬ ∀ f : Str, ∀ c ∈ secureFilename f, c ≠ ' ' ∧ c ≠ '\t' ∧ c ≠ '\n' ∧ c ≠ '\r' := by
  intro h
  have := h "my\tclip.mp4" '\t' (by decide)
  exact this.2.1 rfl

/-- C9, amended: the result of `secureFilename` contains no space character
(U+0020): it is the filename with every space replaced by an underscore and
every other character, other whitespace included, left as it is. -/
theorem secureFilename_replaces_spaces (f : Str) :
    ' ' ∉ secureFilename f ∧
    secureFilename f = f.map (fun c => if c = ' ' then '_' else c) ∧
    (secureFilename f).length = f.length ∧
    ∀ i c, f.get? i = some c →
      (secureFilename f).get? i = some (if c = ' ' then '_' else c) := by
  rw [secureFilename_eq_map]
  refine ⟨?_, rfl, by simp, ?_⟩
  · intro hm
    rw [List.mem_map] at hm
    obtain ⟨c, _, hc⟩ := hm
    by_cases h : c = ' '
    · rw [if_pos h] at hc; exact absurd hc (by decide)
    · rw [if_neg h] at hc; exact h hc
  · intro i c hc
    simp [List.get?_eq_getElem?, List.getElem?_map] at hc ⊢
    simp [hc]

/-- The amended statement at a filename with two spaces and a tab. -/
theorem secureFilename_replaces_spaces_witness :
    secureFilename "my clip\t1 .mp4" = "my_clip\t1_.mp4" ∧
    (secureFilename "my clip\t1 .mp4").get? 2 = some '_' :=
  ⟨(secureFilename_replaces_spaces "my clip\t1 .mp4").2.1.trans (by decide),
   (secureFilename_replaces_spaces "my clip\t1 .mp4").2.2.2 2 ' ' (by decide)⟩

/-! ## Conversion commands -/

/-- C7: the command each conversion runs is `ffmpeg` with a fixed argument
template in which only the two paths are substituted.  `convertToHLS` passes
exactly the listed vector, `convertToDASH` passes `-i inputPath`, the constant
options (libx264, aac, keyframe interval 60, scene-cut detection off, the
bitrates, `-f dash`, the segment names and the adaptation sets) and ends with
the manifest path.  The input path fills only the slot after `-i` and the
output path only the last slot: another input or output directory changes the
vector at that position and nowhere else. -/
theorem convert_commands_fixed_template (inputPath outputDir : Str) :
    hlsCommand inputPath outputDir =
      ⟨"ffmpeg",
       ["-i", inputPath, "-profile:v", "baseline", "-level", "3.0", "-start_number", "0",
        "-hls_time", "10", "-hls_list_size", "0", "-f", "hls",
        Join [outputDir, "playlist.m3u8"]]⟩ ∧
    dashCommand inputPath outputDir =
      ⟨"ffmpeg",
       "-i" :: inputPath ::
        ((["-map", "0:v", "-map", "0:a", "-c:v", "libx264",
          "-x264-params", "keyint=60:min-keyint=60:no-scenecut=1",
          "-b:v:0", "1500k", "-c:a", "aac", "-b:a", "128k",
          "-bf", "1", "-keyint_min", "60", "-g", "60", "-sc_threshold", "0",
          "-f", "dash", "-use_template", "1", "-use_timeline", "1",
          "-init_seg_name", "init-$RepresentationID$.m4s",
          "-media_seg_name", "chunk-$RepresentationID$-$Number%05d$.m4s",
          "-adaptation_sets", "id=0,streams=v id=1,streams=a"] : List Str) ++
         [Join [outputDir, "manifest.mpd"]])⟩ ∧
    (∀ (exitOk : Bool) (w : World),
      (convertToHLS exitOk inputPath outputDir w).1.runs =
        w.runs ++ [hlsCommand inputPath outputDir] ∧
      (convertToDASH exitOk inputPath outputDir w).1.runs =
        w.runs ++ [dashCommand inputPath outputDir]) ∧
    (∀ inputPath2 outputDir2 : Str,
      (hlsCommand inputPath2 outputDir2).args =
        (((hlsCommand inputPath outputDir).args.set 1 inputPath2).set 14
          (Join [outputDir2, "playlist.m3u8"])) ∧
      (dashCommand inputPath2 outputDir2).args =
        (((dashCommand inputPath outputDir).args.set 1 inputPath2).set 36
          (Join [outputDir2, "manifest.mpd"]))) ∧
    (hlsCommand inputPath outputDir).args.length = 15 ∧
    (dashCommand inputPath outputDir).args.length = 37 := by
  refine ⟨rfl, rfl, ?_, ?_, rfl, rfl⟩
  · intro exitOk w
    constructor
    · cases exitOk <;> simp [convertToHLS, runCmd, MkdirAll] <;> split <;> rfl
    · cases exitOk <;> simp [convertToDASH, runCmd, MkdirAll] <;> split <;> rfl
  · intro inputPath2 outputDir2
    exact ⟨rfl, rfl⟩

/-! ## Upload handler -/

theorem convertToHLS_result (exitOk : Bool) (i o : Str) (w : World) :
    (convertToHLS exitOk i o w).2 = exitOk := by
  cases exitOk <;> simp [convertToHLS]

theorem convertToDASH_result (exitOk : Bool) (i o : Str) (w : World) :
    (convertToDASH exitOk i o w).2 = exitOk := by
  cases exitOk <;> simp [convertToDASH]

theorem isAllowedFile_total (uni : Char → Char) (f : Str) :
    isAllowedFile uni f = some true ∨ isAllowedFile uni f = some false := by
  obtain ⟨b, hb, _⟩ := isAllowedFile_spec uni f
  cases b
  · right; exact hb
  · left; exact hb

/-- A request with a shape error is answered 400 and leaves the world as it
was. -/
theorem upload_shape_error (uni : Char → Char) (env : UploadEnv) (form : Option FileHeader)
    (w : World) (h : ShapeError uni form) :
    ∃ r, uploadFileHandler uni env form w = some (w, r) ∧ r.status = 400 := by
  cases form with
  | none => exact ⟨_, rfl, rfl⟩
  | some header =>
    by_cases hn : header.Filename = []
    · simp [uploadFileHandler, hn, StatusBadRequest]
    · rcases h with h | h
      · exact absurd h hn
      · simp [uploadFileHandler, hn, h, StatusBadRequest]

/-- A well-shaped request is answered 500 or 200, the latter exactly when the
file is created and copied and both conversions succeed. -/
theorem upload_no_shape_error (uni : Char → Char) (env : UploadEnv) (form : Option FileHeader)
    (w : World) (h : ¬ ShapeError uni form) :
    ∃ w2 r, uploadFileHandler uni env form w = some (w2, r) ∧
      ((env.createOk = true ∧ env.copyOk = true ∧ env.hlsOk = true ∧ env.dashOk = true) →
        r = ⟨200, .obj [
          ("id", .str env.videoID),
          ("status", .str "success"),
          ("hls_url", .str ("/stream/" ++ env.videoID ++ "/hls/playlist.m3u8")),
          ("dash_url", .str ("/stream/" ++ env.videoID ++ "/dash/manifest.mpd")),
          ("player_url", .str ("/player/" ++ env.videoID))]⟩) ∧
      (¬ (env.createOk = true ∧ env.copyOk = true ∧ env.hlsOk = true ∧ env.dashOk = true) →
        r.status = 500) := by
  cases form with
  | none => exact absurd trivial h
  | some header =>
    have h1 : header.Filename ≠ [] := fun e => h (Or.inl e)
    have h2 : isAllowedFile uni header.Filename = some true := by
      rcases isAllowedFile_total uni header.Filename with e | e
      · exact e
      · exact absurd (Or.inr e) h
    obtain ⟨vid, c1, c2, n, k1, k2⟩ := env
    cases c1 <;> cases c2 <;> cases k1 <;> cases k2 <;>
      simp [uploadFileHandler, h1, h2, convertToHLS, convertToDASH, Sprintf,
        StatusOK, StatusInternalServerError] <;>
      exact ⟨_, _, ⟨rfl, rfl⟩, rfl⟩

/-- C3: `uploadFileHandler` always answers; the status is 400 exactly when the
file part is missing, the filename is empty or `isAllowedFile` is false;
otherwise 500 exactly when creating or copying the file fails or a conversion
returns false; otherwise 200 with the JSON body id, status "success", hls_url,
dash_url, player_url. -/
theorem uploadFileHandler_status (uni : Char → Char) (env : UploadEnv)
    (form : Option FileHeader) (w : World) :
    (∀ (i o : Str) (w0 : World),
      (convertToHLS env.hlsOk i o w0).2 = env.hlsOk ∧
      (convertToDASH env.dashOk i o w0).2 = env.dashOk) ∧
    ∃ w2 r, uploadFileHandler uni env form w = some (w2, r) ∧
      (r.status = 400 ↔ ShapeError uni form) ∧
      (r.status = 500 ↔ ¬ ShapeError uni form ∧
        (env.createOk = false ∨ env.copyOk = false ∨ env.hlsOk = false ∨ env.dashOk = false)) ∧
      (r.status = 200 ↔ ¬ ShapeError uni form ∧
        env.createOk = true ∧ env.copyOk = true ∧ env.hlsOk = true ∧ env.dashOk = true) ∧
      (r.status = 200 → r.body = .obj [
          ("id", .str env.videoID),
          ("status", .str "success"),
          ("hls_url", .str ("/stream/" ++ env.videoID ++ "/hls/playlist.m3u8")),
          ("dash_url", .str ("/stream/" ++ env.videoID ++ "/dash/manifest.mpd")),
          ("player_url", .str ("/player/" ++ env.videoID))]) := by
  refine ⟨fun i o w0 => ⟨convertToHLS_result _ i o w0, convertToDASH_result _ i o w0⟩, ?_⟩
  by_cases hs : ShapeError uni form
  · obtain ⟨r, hr, h400⟩ := upload_shape_error uni env form w hs
    refine ⟨w, r, hr, ?_, ?_, ?_, ?_⟩
    · exact ⟨fun _ => hs, fun _ => h400⟩
    · rw [h400]; exact ⟨fun e => absurd e (by decide), fun e => absurd hs e.1⟩
    · rw [h400]; exact ⟨fun e => absurd e (by decide), fun e => absurd hs e.1⟩
    · rw [h400]; intro e; exact absurd e (by decide)
  · obtain ⟨w2, r, hr, hok, hfail⟩ := upload_no_shape_error uni env form w hs
    refine ⟨w2, r, hr, ?_⟩
    by_cases hall : env.createOk = true ∧ env.copyOk = true ∧ env.hlsOk = true ∧ env.dashOk = true
    · have hr2 := hok hall
      subst hr2
      refine ⟨?_, ?_, ?_, ?_⟩
      · exact ⟨fun e => by simp at e, fun e => absurd e hs⟩
      · constructor
        · intro e; simp at e
        · rintro ⟨_, e⟩
          obtain ⟨a, b, c, d⟩ := hall
          rw [a, b, c, d] at e
          simp at e
      · exact ⟨fun _ => ⟨hs, hall⟩, fun _ => rfl⟩
      · intro _; rfl
    · have h500 := hfail hall
      refine ⟨?_, ?_, ?_, ?_⟩
      · rw [h500]; exact ⟨fun e => absurd e (by decide), fun e => absurd e hs⟩
      · refine ⟨fun _ => ⟨hs, ?_⟩, fun _ => h500⟩
        by_contra hc
        simp only [not_or, Bool.not_eq_false] at hc
        exact hall hc
      · rw [h500]; exact ⟨fun e => absurd e (by decide), fun e => absurd e.2 hall⟩
      · rw [h500]; intro e; exact absurd e (by decide)

/-- The status statement at an allowed upload whose DASH conversion fails. -/
theorem uploadFileHandler_status_witness :
    ∃ w2 r, uploadFileHandler id ⟨"u1", true, true, 0, true, false⟩
        (some ⟨"a b.MP4", 10⟩) ⟨[], [], []⟩ = some (w2, r) ∧ r.status = 500 := by
  obtain ⟨w2, r, hr, _, h500, _⟩ :=
    (uploadFileHandler_status id ⟨"u1", true, true, 0, true, false⟩
      (some ⟨"a b.MP4", 10⟩) ⟨[], [], []⟩).2
  refine ⟨w2, r, hr, h500.mpr ⟨?_, by decide⟩⟩
  rintro (h | h)
  · exact absurd h (by decide)
  · exact absurd h (by decide)

/-- C5: a request rejected for its shape (missing file part, empty filename or
a filename `isAllowedFile` rejects) has no side effect: the handler answers 400
and the world after the request (directories, files, child processes run) is
the world before it. -/
theorem uploadFileHandler_shape_error_no_effect (uni : Char → Char) (env : UploadEnv)
    (form : Option FileHeader) (w : World) (h : ShapeError uni form) :
    ∃ r, uploadFileHandler uni env form w = some (w, r) ∧ r.status = 400 ∧
      ∀ w2 r2, uploadFileHandler uni env form w = some (w2, r2) →
        w2.dirs = w.dirs ∧ w2.files = w.files ∧ w2.runs = w.runs := by
  obtain ⟨r, hr, h400⟩ := upload_shape_error uni env form w h
  refine ⟨r, hr, h400, ?_⟩
  intro w2 r2 h2
  rw [hr] at h2
  have : w = w2 := by
    have := Option.some.inj h2
    exact congrArg Prod.fst this
  subst this
  exact ⟨rfl, rfl, rfl⟩

/-- The no-effect statement at an upload of `notes.txt` into a non-empty
world. -/
theorem uploadFileHandler_shape_error_no_effect_witness :
    ∃ r, uploadFileHandler id ⟨"u1", true, true, 0, true, true⟩ (some ⟨"notes.txt", 10⟩)
        ⟨["uploads"], [("uploads/x/a.mp4", 3)], []⟩ =
      some (⟨["uploads"], [("uploads/x/a.mp4", 3)], []⟩, r) ∧ r.status = 400 := by
  obtain ⟨r, hr, h400, _⟩ :=
    uploadFileHandler_shape_error_no_effect id ⟨"u1", true, true, 0, true, true⟩
      (some ⟨"notes.txt", 10⟩) ⟨["uploads"], [("uploads/x/a.mp4", 3)], []⟩
      (Or.inr (by decide))
  exact ⟨r, hr, h400⟩

/-- The response of `uploadFileHandler` does not depend on the size of the
uploaded content. -/
theorem upload_response_size_independent (uni : Char → Char) (env : UploadEnv)
    (name : Str) (n m : Nat) (w : World) :
    (uploadFileHandler uni env (some ⟨name, n⟩) w).map (fun x => x.2) =
      (uploadFileHandler uni env (some ⟨name, m⟩) w).map (fun x => x.2) := by
  by_cases h1 : name = []
  · simp [uploadFileHandler, h1]
  · rcases isAllowedFile_total uni name with h2 | h2
    · obtain ⟨vid, c1, c2, k, k1, k2⟩ := env
      cases c1 <;> cases c2 <;> cases k1 <;> cases k2 <;>
        simp [uploadFileHandler, h1, h2, convertToHLS, convertToDASH]
    · simp [uploadFileHandler, h1, h2]

/-- C6 (the code does not do this): an upload of 104857601 bytes, one more than
`MaxContentLength`, is stored with all its bytes and answered 200; the handler
never reads `MaxContentLength`. -/
theorem uploadFileHandler_accepts_oversize :
    MaxContentLength < 104857601 ∧
    ∃ w2 r,
      uploadFileHandler id ⟨"123e4567-e89b-12d3-a456-426614174000", true, true, 0, true, true⟩
        (some ⟨"big.mp4", 104857601⟩) ⟨[], [], []⟩ = some (w2, r) ∧
      r.status = 200 ∧
      w2.files =
        ([("uploads/123e4567-e89b-12d3-a456-426614174000/big.mp4", 104857601)] :
          List (Str × Nat)) := by
  refine ⟨by decide, _, _, rfl, rfl, ?_⟩
  decide

/-! ## `filepath.Clean` and `filepath.Join` on paths without `..` -/

theorem splitSep_ne_nil (s : Str) : splitSep s ≠ [] := by
  cases s with
  | nil => simp [splitSep]
  | cons c cs =>
    by_cases h : c = '/'
    · simp [splitSep, h]
    · simp only [splitSep, h, if_false]
      split <;> simp

theorem splitSep_append_sep (a b : Str) :
    splitSep (a ++ '/' :: b) = splitSep a ++ splitSep b := by
  induction a with
  | nil => simp [splitSep]
  | cons c cs ih =>
    by_cases h : c = '/'
    · simp [splitSep, h, ih]
    · have hne := splitSep_ne_nil cs
      cases hs : splitSep cs with
      | nil => exact absurd hs hne
      | cons e es => simp [splitSep, h, ih, hs]

theorem splitSep_of_no_sep (e : Str) (h : '/' ∉ e) : splitSep e = [e] := by
  induction e with
  | nil => rfl
  | cons c cs ih =>
    simp only [List.mem_cons, not_or] at h
    have hc : c ≠ '/' := fun e => h.1 e.symm
    simp [splitSep, hc, ih h.2]

theorem splitSep_joinSep (es : List Str) (hne : es ≠ []) (h : ∀ e ∈ es, '/' ∉ e) :
    splitSep (joinSep es) = es := by
  induction es with
  | nil => exact absurd rfl hne
  | cons e rest ih =>
    cases rest with
    | nil => simpa [joinSep] using splitSep_of_no_sep e (h e (by simp))
    | cons e2 rest2 =>
      have h1 : '/' ∉ e := h e (by simp)
      have h2 := ih (by simp) (fun x hx => h x (List.mem_cons_of_mem _ hx))
      simp only [joinSep]
      rw [splitSep_append_sep, splitSep_of_no_sep e h1, h2]
      rfl

theorem foldl_cleanStep_no_dotdot (rooted : Bool) (es : List Str) :
    ∀ out : List Str, (∀ e ∈ es, e ≠ ['.', '.']) →
      es.foldl (cleanStep rooted) out = (es.filter keepElem).reverse ++ out := by
  induction es with
  | nil => intro out _; rfl
  | cons e rest ih =>
    intro out h
    have he : e ≠ ['.', '.'] := h e (by simp)
    have hrest := ih
    simp only [List.foldl_cons]
    by_cases h1 : e = []
    · rw [ih _ (fun x hx => h x (List.mem_cons_of_mem _ hx))]
      simp [cleanStep, keepElem, h1]
    · by_cases h2 : e = ['.']
      · rw [ih _ (fun x hx => h x (List.mem_cons_of_mem _ hx))]
        simp [cleanStep, keepElem, h2]
      · rw [ih _ (fun x hx => h x (List.mem_cons_of_mem _ hx))]
        simp [cleanStep, keepElem, h1, h2, he]

theorem joinSep_cons_ne_nil (e : Str) (es : List Str) (h : e ≠ []) : joinSep (e :: es) ≠ [] := by
  cases es with
  | nil => simpa [joinSep] using h
  | cons e2 rest => simp [joinSep]

theorem joinSep_cons_cons (e e2 : Str) (es : List Str) :
    joinSep (e :: e2 :: es) = e ++ '/' :: joinSep (e2 :: es) := rfl

/-- `Clean` of a non-empty, unrooted path none of whose elements is `..`: the
elements that are neither empty nor `.`, joined by separators. -/
theorem Clean_of_no_dotdot (p : Str) (hne : p ≠ []) (hroot : p.head? ≠ some '/')
    (h : ∀ e ∈ splitSep p, e ≠ ['.', '.']) :
    Clean p =
      if joinSep ((splitSep p).filter keepElem) = [] then ['.']
      else joinSep ((splitSep p).filter keepElem) := by
  simp [Clean, hne, hroot, foldl_cleanStep_no_dotdot false (splitSep p) [] h]

theorem filter_keepElem_of_real (es : List Str) (h : ∀ e ∈ es, RealElem e) :
    es.filter keepElem = es := by
  rw [List.filter_eq_self]
  intro e he
  obtain ⟨h1, _, h3, _⟩ := h e he
  simp [keepElem, h1, h3]

theorem head_joinSep_real (e : Str) (es : List Str) (h : RealElem e) :
    (joinSep (e :: es)).head? ≠ some '/' := by
  obtain ⟨h1, h2, _, _⟩ := h
  cases e with
  | nil => exact absurd rfl h1
  | cons c cs =>
    simp only [List.mem_cons, not_or] at h2
    cases es with
    | nil => simpa [joinSep] using fun e => h2.1 e.symm
    | cons e2 rest => simpa [joinSep] using fun e => h2.1 e.symm

/-- `Clean` leaves a path made of real elements as it is. -/
theorem Clean_joinSep_real (es : List Str) (hne : es ≠ []) (h : ∀ e ∈ es, RealElem e) :
    Clean (joinSep es) = joinSep es := by
  cases es with
  | nil => exact absurd rfl hne
  | cons e rest =>
    have he : RealElem e := h e (by simp)
    have hj : joinSep (e :: rest) ≠ [] := joinSep_cons_ne_nil e rest he.1
    have hs : splitSep (joinSep (e :: rest)) = e :: rest :=
      splitSep_joinSep _ (by simp) (fun x hx => (h x hx).2.1)
    rw [Clean_of_no_dotdot _ hj (head_joinSep_real e rest he)
      (by rw [hs]; exact fun x hx => (h x hx).2.2.2)]
    rw [hs, filter_keepElem_of_real _ h, if_neg hj]

/-- `Join` of real elements is the elements joined by separators. -/
theorem Join_real (es : List Str) (hne : es ≠ []) (h : ∀ e ∈ es, RealElem e) :
    Join es = joinSep es := by
  cases es with
  | nil => exact absurd rfl hne
  | cons e rest =>
    have he : e ≠ [] := (h e (by simp)).1
    have : Join (e :: rest) = Clean (joinSep (e :: rest)) := by
      simp [Join, List.dropWhile, he]
    rw [this, Clean_joinSep_real _ hne h]

/-- `Join` of a non-empty first path and one more element is `Clean` of the
two with a separator between. -/
theorem Join_pair (d x : Str) (hd : d ≠ []) : Join [d, x] = Clean (d ++ '/' :: x) := by
  simp [Join, List.dropWhile, hd, joinSep]

/-! ## The video identity as join key -/

theorem realElem_of_canonicalUUID (s : Str) (h : isCanonicalUUID s = true) : RealElem s := by
  simp only [isCanonicalUUID, Bool.and_eq_true, beq_iff_eq] at h
  obtain ⟨⟨⟨hlen, hall⟩, _⟩, _⟩ := h
  refine ⟨?_, ?_, ?_, ?_⟩
  · intro e; rw [e] at hlen; simp at hlen
  · intro hm
    have := List.all_eq_true.mp hall '/' hm
    exact absurd this (by decide)
  · intro e; rw [e] at hlen; simp at hlen
  · intro e; rw [e] at hlen; simp at hlen

theorem stream_join4 (id a b : Str) (hid : RealElem id) (ha : RealElem a) (hb : RealElem b) :
    Join [Join [OutputFolder, id, a], b] = "streams/" ++ id ++ '/' :: a ++ '/' :: b ∧
    Join [Join [Join [OutputFolder, id], a], b] = "streams/" ++ id ++ '/' :: a ++ '/' :: b ∧
    Join [Join [OutputFolder, id], a, b] = "streams/" ++ id ++ '/' :: a ++ '/' :: b := by
  have hs : RealElem OutputFolder := ⟨by decide, by decide, by decide, by decide⟩
  have all4 : ∀ e ∈ [OutputFolder, id, a, b], RealElem e := by
    intro e he
    simp only [List.mem_cons, List.mem_singleton, List.not_mem_nil, or_false] at he
    rcases he with e1 | e1 | e1 | e1 <;> rw [e1] <;> assumption
  have all3 : ∀ e ∈ [OutputFolder, id, a], RealElem e :=
    fun e he => all4 e (by simp at he ⊢; tauto)
  have all2 : ∀ e ∈ [OutputFolder, id], RealElem e :=
    fun e he => all4 e (by simp at he ⊢; tauto)
  have j2 : Join [OutputFolder, id] = joinSep [OutputFolder, id] := Join_real _ (by simp) all2
  have j3 : Join [OutputFolder, id, a] = joinSep [OutputFolder, id, a] :=
    Join_real _ (by simp) all3
  have j3b : Join [joinSep [OutputFolder, id], a] = joinSep [OutputFolder, id, a] := by
    rw [Join_pair _ _ (joinSep_cons_ne_nil _ _ hs.1)]
    have : joinSep [OutputFolder, id] ++ '/' :: a = joinSep [OutputFolder, id, a] := by
      simp [joinSep]
    rw [this, Clean_joinSep_real _ (by simp) all3]
  have j4 : Join [joinSep [OutputFolder, id, a], b] = joinSep [OutputFolder, id, a, b] := by
    rw [Join_pair _ _ (joinSep_cons_ne_nil _ _ hs.1)]
    have : joinSep [OutputFolder, id, a] ++ '/' :: b = joinSep [OutputFolder, id, a, b] := by
      simp [joinSep]
    rw [this, Clean_joinSep_real _ (by simp) all4]
  have j4b : Join [joinSep [OutputFolder, id], a, b] = joinSep [OutputFolder, id, a, b] := by
    have e : Join [joinSep [OutputFolder, id], a, b] =
        Clean (joinSep [joinSep [OutputFolder, id], a, b]) := by
      have hne : joinSep [OutputFolder, id] ≠ [] := joinSep_cons_ne_nil _ _ hs.1
      simp [Join, List.dropWhile, hne]
    have : joinSep [joinSep [OutputFolder, id], a, b] = joinSep [OutputFolder, id, a, b] := by
      simp [joinSep]
    rw [e, this, Clean_joinSep_real _ (by simp) all4]
  have fin : joinSep [OutputFolder, id, a, b] = "streams/" ++ id ++ '/' :: a ++ '/' :: b := by
    simp [joinSep, OutputFolder]
  refine ⟨?_, ?_, ?_⟩
  · rw [j3, j4, fin]
  · rw [j2, j3b, j4, fin]
  · rw [j2, j4b, fin]

theorem MkdirAll_runs (p : Str) (w : World) : (MkdirAll p w).runs = w.runs := by
  unfold MkdirAll; split <;> rfl

theorem writeFile_runs (p : Str) (n : Nat) (w : World) : (writeFile p n w).runs = w.runs := rfl

/-- A successful upload: the response and the two commands run. -/
theorem upload_success (uni : Char → Char) (env : UploadEnv) (form : Option FileHeader)
    (w : World) (h : ¬ ShapeError uni form)
    (hok : env.createOk = true ∧ env.copyOk = true ∧ env.hlsOk = true ∧ env.dashOk = true) :
    ∃ header w2, form = some header ∧
      uploadFileHandler uni env form w = some (w2, ⟨200, .obj [
          ("id", .str env.videoID),
          ("status", .str "success"),
          ("hls_url", .str ("/stream/" ++ env.videoID ++ "/hls/playlist.m3u8")),
          ("dash_url", .str ("/stream/" ++ env.videoID ++ "/dash/manifest.mpd")),
          ("player_url", .str ("/player/" ++ env.videoID))]⟩) ∧
      w2.runs = w.runs ++
        [hlsCommand (Join [Join [UploadFolder, env.videoID], secureFilename header.Filename])
           (Join [Join [OutputFolder, env.videoID], "hls"]),
         dashCommand (Join [Join [UploadFolder, env.videoID], secureFilename header.Filename])
           (Join [Join [OutputFolder, env.videoID], "dash"])] := by
  cases form with
  | none => exact absurd trivial h
  | some header =>
    have h1 : header.Filename ≠ [] := fun e => h (Or.inl e)
    have h2 : isAllowedFile uni header.Filename = some true := by
      rcases isAllowedFile_total uni header.Filename with e | e
      · exact e
      · exact absurd (Or.inr e) h
    obtain ⟨vid, c1, c2, n, k1, k2⟩ := env
    obtain ⟨e1, e2, e3, e4⟩ := hok
    simp only at e1 e2 e3 e4
    subst e1 e2 e3 e4
    refine ⟨header, ?_⟩
    simp [uploadFileHandler, h1, h2, convertToHLS, convertToDASH, Sprintf, StatusOK,
      runCmd, MkdirAll_runs, writeFile_runs]

/-- C8: for an identity `id` that is one path element (as every canonical UUID
is: not empty, no separator, neither `.` nor `..`), the identity alone joins
URLs and files.  The path `streamFileHandler` resolves for the route
parameters of the HLS URL is `streams/id/hls/playlist.m3u8`, which is the
output path of the HLS command of the upload and the path `videoListHandler`
tests; likewise `streams/id/dash/manifest.mpd` for DASH; and the URLs built by
`uploadFileHandler`, `playerHandler` and `videoListHandler` for `id` are the
same strings.  The listing is tied to the `Stat` oracle at exactly these two
paths: for the directory entry `id` the loop body of `videoListHandler` appends
an entry exactly when `Stat` of one of them does not report not-exist, each URL
being non-null exactly when `Stat` of its path does not report not-exist; and
`streamFileHandler` answers 404 or hands over the file according to `Stat` of
the same path. -/
theorem identity_is_join_key (id : Str) (hid : RealElem id) :
    (streamFilePath id "hls" "/playlist.m3u8" = "streams/" ++ id ++ "/hls/playlist.m3u8" ∧
     listHlsPath id = "streams/" ++ id ++ "/hls/playlist.m3u8" ∧
     streamFilePath id "dash" "/manifest.mpd" = "streams/" ++ id ++ "/dash/manifest.mpd" ∧
     listDashPath id = "streams/" ++ id ++ "/dash/manifest.mpd") ∧
    (∀ (uni : Char → Char) (env : UploadEnv) (form : Option FileHeader) (w : World),
      env.videoID = id → ¬ ShapeError uni form →
      env.createOk = true ∧ env.copyOk = true ∧ env.hlsOk = true ∧ env.dashOk = true →
      ∃ header w2,
        form = some header ∧
        uploadFileHandler uni env form w = some (w2, ⟨200, .obj [
          ("id", .str id),
          ("status", .str "success"),
          ("hls_url", .str ("/stream/" ++ id ++ "/" ++ "hls" ++ "/playlist.m3u8")),
          ("dash_url", .str ("/stream/" ++ id ++ "/" ++ "dash" ++ "/manifest.mpd")),
          ("player_url", .str ("/player/" ++ id))]⟩) ∧
        w2.runs = w.runs ++
          [hlsCommand (Join [Join [UploadFolder, id], secureFilename header.Filename])
             (Join [Join [OutputFolder, id], "hls"]),
           dashCommand (Join [Join [UploadFolder, id], secureFilename header.Filename])
             (Join [Join [OutputFolder, id], "dash"])] ∧
        (hlsCommand (Join [Join [UploadFolder, id], secureFilename header.Filename])
          (Join [Join [OutputFolder, id], "hls"])).args.getLast? =
            some ("streams/" ++ id ++ "/hls/playlist.m3u8") ∧
        (dashCommand (Join [Join [UploadFolder, id], secureFilename header.Filename])
          (Join [Join [OutputFolder, id], "dash"])).args.getLast? =
            some ("streams/" ++ id ++ "/dash/manifest.mpd")) ∧
    (∀ stat : Str → StatResult,
      stat ("streams/" ++ id ++ "/hls/playlist.m3u8") = .ok →
        streamFileHandler stat id "hls" "/playlist.m3u8" =
          .file ("streams/" ++ id ++ "/hls/playlist.m3u8")) ∧
    playerHandler id = ⟨200, .obj [
      ("video_id", .str id),
      ("hls_url", .str ("/stream/" ++ id ++ "/" ++ "hls" ++ "/playlist.m3u8")),
      ("dash_url", .str ("/stream/" ++ id ++ "/" ++ "dash" ++ "/manifest.mpd"))]⟩ ∧
    videoListHandler (some [⟨id, true⟩]) (fun _ => StatResult.ok) = ⟨200, .arr [[
      ("id", .str id),
      ("player_url", .str ("/player/" ++ id)),
      ("hls_url", .str ("/stream/" ++ id ++ "/" ++ "hls" ++ "/playlist.m3u8")),
      ("dash_url", .str ("/stream/" ++ id ++ "/" ++ "dash" ++ "/manifest.mpd"))]]⟩ ∧
    (∀ (stat : Str → StatResult) (videos : List H),
      videoListStep stat videos ⟨id, true⟩ =
        if stat ("streams/" ++ id ++ "/hls/playlist.m3u8") ≠ .notExist ∨
            stat ("streams/" ++ id ++ "/dash/manifest.mpd") ≠ .notExist then
          videos ++ [([
            ("id", .str id),
            ("player_url", .str ("/player/" ++ id)),
            ("hls_url",
              if stat ("streams/" ++ id ++ "/hls/playlist.m3u8") ≠ .notExist
              then .str ("/stream/" ++ id ++ "/" ++ "hls" ++ "/playlist.m3u8") else .null),
            ("dash_url",
              if stat ("streams/" ++ id ++ "/dash/manifest.mpd") ≠ .notExist
              then .str ("/stream/" ++ id ++ "/" ++ "dash" ++ "/manifest.mpd") else .null)] : H)]
        else videos) ∧
    (∀ stat : Str → StatResult,
      videoListHandler (some [⟨id, true⟩]) stat =
        ⟨200, .arr (
          if stat ("streams/" ++ id ++ "/hls/playlist.m3u8") ≠ .notExist ∨
              stat ("streams/" ++ id ++ "/dash/manifest.mpd") ≠ .notExist then
            [([
              ("id", .str id),
              ("player_url", .str ("/player/" ++ id)),
              ("hls_url",
                if stat ("streams/" ++ id ++ "/hls/playlist.m3u8") ≠ .notExist
                then .str ("/stream/" ++ id ++ "/" ++ "hls" ++ "/playlist.m3u8") else .null),
              ("dash_url",
                if stat ("streams/" ++ id ++ "/dash/manifest.mpd") ≠ .notExist
                then .str ("/stream/" ++ id ++ "/" ++ "dash" ++ "/manifest.mpd") else .null)] : H)]
          else [])⟩) ∧
    (∀ stat : Str → StatResult,
      (stat ("streams/" ++ id ++ "/hls/playlist.m3u8") = .notExist →
        streamFileHandler stat id "hls" "/playlist.m3u8" =
          .json ⟨404, .obj [("error", .str "File not found")]⟩) ∧
      (stat ("streams/" ++ id ++ "/dash/manifest.mpd") = .notExist →
        streamFileHandler stat id "dash" "/manifest.mpd" =
          .json ⟨404, .obj [("error", .str "File not found")]⟩) ∧
      (stat ("streams/" ++ id ++ "/dash/manifest.mpd") ≠ .notExist →
        streamFileHandler stat id "dash" "/manifest.mpd" =
          .file ("streams/" ++ id ++ "/dash/manifest.mpd"))) := by
  have rh : RealElem ("hls" : Str) := ⟨by decide, by decide, by decide, by decide⟩
  have rd : RealElem ("dash" : Str) := ⟨by decide, by decide, by decide, by decide⟩
  have rp : RealElem ("playlist.m3u8" : Str) := ⟨by decide, by decide, by decide, by decide⟩
  have rm : RealElem ("manifest.mpd" : Str) := ⟨by decide, by decide, by decide, by decide⟩
  obtain ⟨a1, a2, a3⟩ := stream_join4 id "hls" "playlist.m3u8" hid rh rp
  obtain ⟨b1, b2, b3⟩ := stream_join4 id "dash" "manifest.mpd" hid rd rm
  have t1 : TrimPrefix ("/playlist.m3u8" : Str) "/" = "playlist.m3u8" := by decide
  have t2 : TrimPrefix ("/manifest.mpd" : Str) "/" = "manifest.mpd" := by decide
  have p1 : streamFilePath id "hls" "/playlist.m3u8" =
      "streams/" ++ id ++ "/hls/playlist.m3u8" := by
    simp only [streamFilePath, t1]; rw [a1]; simp
  have p2 : listHlsPath id = "streams/" ++ id ++ "/hls/playlist.m3u8" := by
    simp only [listHlsPath]; rw [a3]; simp
  have p3 : streamFilePath id "dash" "/manifest.mpd" =
      "streams/" ++ id ++ "/dash/manifest.mpd" := by
    simp only [streamFilePath, t2]; rw [b1]; simp
  have p4 : listDashPath id = "streams/" ++ id ++ "/dash/manifest.mpd" := by
    simp only [listDashPath]; rw [b3]; simp
  have step : ∀ (stat : Str → StatResult) (videos : List H),
      videoListStep stat videos ⟨id, true⟩ =
        if stat ("streams/" ++ id ++ "/hls/playlist.m3u8") ≠ .notExist ∨
            stat ("streams/" ++ id ++ "/dash/manifest.mpd") ≠ .notExist then
          videos ++ [([
            ("id", .str id),
            ("player_url", .str ("/player/" ++ id)),
            ("hls_url",
              if stat ("streams/" ++ id ++ "/hls/playlist.m3u8") ≠ .notExist
              then .str ("/stream/" ++ id ++ "/" ++ "hls" ++ "/playlist.m3u8") else .null),
            ("dash_url",
              if stat ("streams/" ++ id ++ "/dash/manifest.mpd") ≠ .notExist
              then .str ("/stream/" ++ id ++ "/" ++ "dash" ++ "/manifest.mpd") else .null)] : H)]
        else videos := by
    intro stat videos
    simp only [videoListStep, fileExists, p2, p4]
    cases stat ("streams/" ++ id ++ "/hls/playlist.m3u8") <;>
      cases stat ("streams/" ++ id ++ "/dash/manifest.mpd") <;>
      simp [IsNotExist, Sprintf]
  refine ⟨⟨p1, p2, p3, p4⟩, ?_, ?_, ?_, ?_, step, ?_, ?_⟩
  · intro uni env form w hv hs hok
    obtain ⟨header, w2, hform, hr, hruns⟩ := upload_success uni env form w hs hok
    rw [hv] at hr hruns
    refine ⟨header, w2, hform, ?_, hruns, ?_, ?_⟩
    · rw [hr]; simp
    · simp only [hlsCommand, Command]; rw [a2]; simp
    · simp only [dashCommand, Command]; rw [b2]; simp
  · intro stat hstat
    simp only [streamFileHandler]
    rw [p1, hstat]
    simp [IsNotExist]
  · simp [playerHandler, Sprintf, StatusOK]
  · simp [videoListHandler, videoListStep, fileExists, IsNotExist, Sprintf, StatusOK]
  · intro stat
    simp only [videoListHandler, List.foldl_cons, List.foldl_nil, step, StatusOK]
    split <;> simp
  · intro stat
    refine ⟨?_, ?_, ?_⟩
    · intro hstat
      simp only [streamFileHandler]
      rw [p1, hstat]
      simp [IsNotExist, StatusNotFound]
    · intro hstat
      simp only [streamFileHandler]
      rw [p3, hstat]
      simp [IsNotExist, StatusNotFound]
    · intro hstat
      simp only [streamFileHandler]
      rw [p3]
      cases hs : stat ("streams/" ++ id ++ "/dash/manifest.mpd") <;> simp [IsNotExist]
      exact hstat hs

/-- The join-key statement at a concrete canonical UUID: the paths, and the
listing under a `Stat` oracle that finds only the DASH manifest of that
identity. -/
theorem identity_is_join_key_witness :
    streamFilePath "123e4567-e89b-12d3-a456-426614174000" "hls" "/playlist.m3u8" =
      "streams/" ++ ("123e4567-e89b-12d3-a456-426614174000" : Str) ++ "/hls/playlist.m3u8" ∧
    listHlsPath "123e4567-e89b-12d3-a456-426614174000" =
      "streams/" ++ ("123e4567-e89b-12d3-a456-426614174000" : Str) ++ "/hls/playlist.m3u8" ∧
    videoListHandler (some [⟨"123e4567-e89b-12d3-a456-426614174000", true⟩])
        (fun p =>
          if p = ("streams/123e4567-e89b-12d3-a456-426614174000/dash/manifest.mpd" : Str)
          then .ok else .notExist) =
      ⟨200, .arr [[
        ("id", .str "123e4567-e89b-12d3-a456-426614174000"),
        ("player_url", .str "/player/123e4567-e89b-12d3-a456-426614174000"),
        ("hls_url", .null),
        ("dash_url",
          .str "/stream/123e4567-e89b-12d3-a456-426614174000/dash/manifest.mpd")]]⟩ ∧
    videoListHandler (some [⟨"123e4567-e89b-12d3-a456-426614174000", true⟩])
        (fun _ => .notExist) = ⟨200, .arr []⟩ :=
  have h := identity_is_join_key "123e4567-e89b-12d3-a456-426614174000"
    (realElem_of_canonicalUUID _ (by decide))
  ⟨h.1.1, h.1.2.1,
   (h.2.2.2.2.2.2.1 _).trans (by decide),
   (h.2.2.2.2.2.2.1 _).trans (by decide)⟩

/-! ## Containment of resolved paths -/

theorem isPrefixOf_append_sep (a x : Str) :
    (a ++ ['/']).isPrefixOf (a ++ '/' :: x) = true := by
  induction a with
  | nil => simp [List.isPrefixOf]
  | cons c cs ih => simp [List.isPrefixOf, ih]

theorem isInside_joinSep_root (root : Str) (l : List Str) :
    isInside root (joinSep (root :: l)) = true := by
  cases l with
  | nil => simp [isInside, joinSep]
  | cons e rest =>
    simp only [isInside, joinSep_cons_cons, Bool.or_eq_true]
    right
    exact isPrefixOf_append_sep root (joinSep (e :: rest))

theorem mem_splitSep_TrimPrefix (filename e : Str)
    (h : e ∈ splitSep (TrimPrefix filename "/")) : e ∈ splitSep filename := by
  cases filename with
  | nil => simpa [TrimPrefix] using h
  | cons c cs =>
    by_cases hc : c = '/'
    · subst hc
      have : TrimPrefix ('/' :: cs) "/" = cs := by
        simp [TrimPrefix, List.isPrefixOf]
      rw [this] at h
      simp [splitSep, h]
    · have hb : ('/' == c) = false := by
        rw [beq_eq_false_iff_ne]; exact fun e => hc e.symm
      have : TrimPrefix (c :: cs) "/" = c :: cs := by
        simp [TrimPrefix, List.isPrefixOf, hb]
      rw [this] at h
      exact h

/-- `Clean` of an unrooted path whose first element is real and that has no
`..` element keeps the first element in front. -/
theorem Clean_under (root : Str) (hroot : RealElem root) (rest : List Str) (p : Str)
    (hp : splitSep p = root :: rest) (hne : p ≠ []) (hhead : p.head? ≠ some '/')
    (h : ∀ e ∈ rest, e ≠ ['.', '.']) :
    Clean p = joinSep (root :: rest.filter keepElem) := by
  have hk : keepElem root = true := by
    simp [keepElem, hroot.1, hroot.2.2.1]
  rw [Clean_of_no_dotdot p hne hhead]
  · rw [hp]
    simp only [List.filter_cons, hk, if_true]
    rw [if_neg (joinSep_cons_ne_nil _ _ hroot.1)]
  · rw [hp]
    intro e he
    rcases List.mem_cons.mp he with e1 | e1
    · rw [e1]; exact hroot.2.2.2
    · exact h e e1

theorem head_append_of_real (root : Str) (hroot : RealElem root) (x : Str) :
    (root ++ x).head? ≠ some '/' := by
  obtain ⟨h1, h2, _, _⟩ := hroot
  cases root with
  | nil => exact absurd rfl h1
  | cons c cs =>
    simp only [List.mem_cons, not_or] at h2
    simpa using fun e => h2.1 e.symm

theorem joinSep_root_eq (root : Str) (l : List Str) :
    ∃ x, joinSep (root :: l) = root ++ x := by
  cases l with
  | nil => exact ⟨[], by simp [joinSep]⟩
  | cons e rest => exact ⟨'/' :: joinSep (e :: rest), rfl⟩

/-- The path resolved by `streamFileHandler` when no `..` element is involved:
`streams` followed by the elements of the parameters that are neither empty
nor `.`. -/
theorem streamFilePath_form (videoID formatType filename : Str)
    (hv : '/' ∉ videoID) (hf : '/' ∉ formatType)
    (hv2 : videoID ≠ ['.', '.']) (hf2 : formatType ≠ ['.', '.'])
    (hn : ∀ e ∈ splitSep filename, e ≠ ['.', '.']) :
    streamFilePath videoID formatType filename =
      joinSep (OutputFolder ::
        (([videoID, formatType].filter keepElem) ++
          (splitSep (TrimPrefix filename "/")).filter keepElem)) := by
  have hs : RealElem OutputFolder := ⟨by decide, by decide, by decide, by decide⟩
  -- the directory
  have hdir : Join [OutputFolder, videoID, formatType] =
      joinSep (OutputFolder :: [videoID, formatType].filter keepElem) := by
    have e : Join [OutputFolder, videoID, formatType] =
        Clean (joinSep [OutputFolder, videoID, formatType]) := by
      simp [Join, List.dropWhile, hs.1]
    rw [e]
    apply Clean_under OutputFolder hs [videoID, formatType]
    · apply splitSep_joinSep _ (by simp)
      intro x hx
      simp only [List.mem_cons, List.mem_singleton, List.not_mem_nil, or_false] at hx
      rcases hx with e1 | e1 | e1
      · rw [e1]; exact hs.2.1
      · rw [e1]; exact hv
      · rw [e1]; exact hf
    · exact joinSep_cons_ne_nil _ _ hs.1
    · exact head_joinSep_real _ _ hs
    · intro x hx
      simp only [List.mem_cons, List.mem_singleton, List.not_mem_nil, or_false] at hx
      rcases hx with e1 | e1
      · rw [e1]; exact hv2
      · rw [e1]; exact hf2
  -- the file path
  have hk : ∀ e ∈ OutputFolder :: [videoID, formatType].filter keepElem, '/' ∉ e := by
    intro x hx
    rcases List.mem_cons.mp hx with e1 | e1
    · rw [e1]; exact hs.2.1
    · have := List.mem_of_mem_filter e1
      simp only [List.mem_cons, List.mem_singleton, List.not_mem_nil, or_false] at this
      rcases this with e2 | e2
      · rw [e2]; exact hv
      · rw [e2]; exact hf
  simp only [streamFilePath]
  rw [hdir, Join_pair _ _ (joinSep_cons_ne_nil _ _ hs.1)]
  have hsplit : splitSep (joinSep (OutputFolder :: [videoID, formatType].filter keepElem) ++
      '/' :: TrimPrefix filename "/") =
      OutputFolder :: ([videoID, formatType].filter keepElem ++
        splitSep (TrimPrefix filename "/")) := by
    rw [splitSep_append_sep, splitSep_joinSep _ (by simp) hk]
    rfl
  rw [Clean_under OutputFolder hs _ _ hsplit]
  · rw [List.filter_append, List.filter_filter]
    simp
  · obtain ⟨x, hx⟩ := joinSep_root_eq OutputFolder ([videoID, formatType].filter keepElem)
    rw [hx]; simp [OutputFolder]
  · obtain ⟨x, hx⟩ := joinSep_root_eq OutputFolder ([videoID, formatType].filter keepElem)
    rw [hx, List.append_assoc]
    exact head_append_of_real _ hs _
  · intro e he
    rcases List.mem_append.mp he with e1 | e1
    · have := List.mem_of_mem_filter e1
      simp only [List.mem_cons, List.mem_singleton, List.not_mem_nil, or_false] at this
      rcases this with e2 | e2
      · rw [e2]; exact hv2
      · rw [e2]; exact hf2
    · exact hn e (mem_splitSep_TrimPrefix _ _ e1)

/-- C10, as stated, fails: with `..` elements in the wildcard parameter the
path resolved by `streamFileHandler` leaves the output root
(`/stream/a/hls/../../../etc/passwd` resolves to `etc/passwd`). -/
theorem streamFilePath_leaves_output_root :
    ¬ ∀ videoID formatType filename : Str, '/' ∉ videoID → '/' ∉ formatType →
        isInside OutputFolder (streamFilePath videoID formatType filename) = true := by
  intro h
  have := h "a" "hls" "/../../../etc/passwd" (by decide) (by decide)
  exact absurd this (by decide)

/-- C10, amended: when `videoID` and `formatType` contain no separator and
neither they nor any element of `filename` is `..`, the path resolved by
`streamFileHandler` is the output root `streams` or lies below it. -/
theorem streamFilePath_inside_output_root (videoID formatType filename : Str)
    (hv : '/' ∉ videoID) (hf : '/' ∉ formatType)
    (hv2 : videoID ≠ ['.', '.']) (hf2 : formatType ≠ ['.', '.'])
    (hn : ∀ e ∈ splitSep filename, e ≠ ['.', '.']) :
    isInside OutputFolder (streamFilePath videoID formatType filename) = true ∧
    ∀ stat : Str → StatResult, ∀ p,
      streamFileHandler stat videoID formatType filename = .file p →
        isInside OutputFolder p = true := by
  have hform := streamFilePath_form videoID formatType filename hv hf hv2 hf2 hn
  have hin : isInside OutputFolder (streamFilePath videoID formatType filename) = true := by
    rw [hform]; exact isInside_joinSep_root _ _
  refine ⟨hin, ?_⟩
  intro stat p hp
  unfold streamFileHandler at hp
  simp only at hp
  split at hp
  · exact absurd hp (by simp)
  · have : streamFilePath videoID formatType filename = p := by
      injection hp
    rw [← this]; exact hin

/-- The containment statement at a segment request with `.` and an empty
element in the wildcard parameter. -/
theorem streamFilePath_inside_output_root_witness :
    isInside OutputFolder
      (streamFilePath "123e4567-e89b-12d3-a456-426614174000" "dash" "/./seg//chunk-0-00001.m4s")
      = true :=
  (streamFilePath_inside_output_root "123e4567-e89b-12d3-a456-426614174000" "dash"
    "/./seg//chunk-0-00001.m4s" (by decide) (by decide) (by decide) (by decide) (by decide)).1

/-! ## Path traversal through the upload filename -/

/-- C2 (the code does not do this): `secureFilename` leaves `..` and separators
in place, so for the filename `../../evil.mp4`, which `isAllowedFile` accepts,
the joined destination path is `evil.mp4`, outside the upload directory, and
the handler writes the file there. -/
theorem secureFilename_join_escapes_upload_dir :
    secureFilename "../../evil.mp4" = "../../evil.mp4" ∧
    Join ["uploads/123e4567-e89b-12d3-a456-426614174000", secureFilename "../../evil.mp4"] =
      "evil.mp4" ∧
    isInside "uploads/123e4567-e89b-12d3-a456-426614174000"
      (Join ["uploads/123e4567-e89b-12d3-a456-426614174000",
        secureFilename "../../evil.mp4"]) = false ∧
    ∃ w2 r,
      uploadFileHandler id ⟨"123e4567-e89b-12d3-a456-426614174000", true, true, 0, true, true⟩
        (some ⟨"../../evil.mp4", 7⟩) ⟨[], [], []⟩ = some (w2, r) ∧
      r.status = 200 ∧ w2.files = ([("evil.mp4", 7)] : List (Str × Nat)) := by
  refine ⟨by decide, by decide, by decide, _, _, rfl, rfl, ?_⟩
  decide

/-! ## Listing -/

/-- C4 (the code does not do this): when `Stat` of the HLS playlist fails with
an error other than not-exist (here `streams/v1/hls` is a file, not a
directory), `fileExists` answers true for a file that does not exist, and
`videoListHandler` lists `v1` with a non-null `hls_url` although none of its
entry files exists. -/
theorem videoListHandler_lists_missing_entry_file :
    statHlsNotADirectory (listHlsPath "v1") = .otherErr ∧
    statHlsNotADirectory (listDashPath "v1") = .notExist ∧
    fileExists statHlsNotADirectory (listHlsPath "v1") = true ∧
    videoListHandler (some [⟨"v1", true⟩]) statHlsNotADirectory =
      ⟨200, .arr [[
        ("id", .str "v1"),
        ("player_url", .str "/player/v1"),
        ("hls_url", .str "/stream/v1/hls/playlist.m3u8"),
        ("dash_url", .null)]]⟩ := by
  refine ⟨by decide, by decide, by decide, by decide⟩

/-- Within `videoListHandler`, `fileExists` agrees with existence as long as
`Stat` either succeeds or reports not-exist. -/
theorem fileExists_iff_ok (stat : Str → StatResult) (p : Str) (h : stat p ≠ .otherErr) :
    fileExists stat p = true ↔ stat p = .ok := by
  unfold fileExists
  cases hs : stat p <;> simp [IsNotExist]
  exact h hs

theorem mem_foldl_videoListStep (stat : Str → StatResult) (entries : List DirEntry) :
    ∀ (acc : List H) (video : H),
      video ∈ entries.foldl (videoListStep stat) acc ↔
        video ∈ acc ∨ ∃ entry ∈ entries, entry.IsDir = true ∧
          (fileExists stat (listHlsPath entry.Name) = true ∨
            fileExists stat (listDashPath entry.Name) = true) ∧
          video = listedVideo entry.Name (fileExists stat (listHlsPath entry.Name))
            (fileExists stat (listDashPath entry.Name)) := by
  induction entries with
  | nil => intro acc video; simp
  | cons entry rest ih =>
    intro acc video
    rw [List.foldl_cons, ih]
    by_cases hd : entry.IsDir = true
    · by_cases he : fileExists stat (listHlsPath entry.Name) = true ∨
          fileExists stat (listDashPath entry.Name) = true
      · have hstep : videoListStep stat acc entry = acc ++ [listedVideo entry.Name
            (fileExists stat (listHlsPath entry.Name))
            (fileExists stat (listDashPath entry.Name))] := by
          have he2 : (fileExists stat (listHlsPath entry.Name) ||
              fileExists stat (listDashPath entry.Name)) = true := by
            simpa using he
          simp [videoListStep, hd, he2, Sprintf, listedVideo]
        rw [hstep]
        simp only [List.mem_append, List.mem_singleton, List.mem_cons, exists_eq_or_imp,
          List.not_mem_nil, or_false]
        constructor
        · rintro ((h | h) | h)
          · left; exact h
          · right; left; exact ⟨hd, he, h⟩
          · right; right; exact h
        · rintro (h | ⟨_, _, h⟩ | h)
          · left; left; exact h
          · left; right; exact h
          · right; exact h
      · have hstep : videoListStep stat acc entry = acc := by
          have he2 : (fileExists stat (listHlsPath entry.Name) ||
              fileExists stat (listDashPath entry.Name)) = false := by
            simpa using he
          simp [videoListStep, hd, he2]
        rw [hstep]
        simp only [List.mem_cons, exists_eq_or_imp]
        constructor
        · rintro (h | h)
          · left; exact h
          · right; right; exact h
        · rintro (h | ⟨_, h2, _⟩ | h)
          · left; exact h
          · exact absurd h2 he
          · right; exact h
    · have hstep : videoListStep stat acc entry = acc := by
        simp [videoListStep, hd]
      rw [hstep]
      simp only [List.mem_cons, exists_eq_or_imp]
      constructor
      · rintro (h | h)
        · left; exact h
        · right; right; exact h
      · rintro (h | ⟨h2, _⟩ | h)
        · left; exact h
        · exact absurd h2 hd
        · right; exact h

/-- What `videoListHandler` lists, in terms of `fileExists`: one entry for
every directory entry for which `fileExists` holds of an entry file. -/
theorem videoListHandler_entries (stat : Str → StatResult) (entries : List DirEntry) :
    ∃ videos, videoListHandler (some entries) stat = ⟨200, .arr videos⟩ ∧
      ∀ video, video ∈ videos ↔
        ∃ entry ∈ entries, entry.IsDir = true ∧
          (fileExists stat (listHlsPath entry.Name) = true ∨
            fileExists stat (listDashPath entry.Name) = true) ∧
          video = listedVideo entry.Name (fileExists stat (listHlsPath entry.Name))
            (fileExists stat (listDashPath entry.Name)) := by
  refine ⟨_, rfl, ?_⟩
  intro video
  rw [mem_foldl_videoListStep]
  simp

end GoStreamer
